import Mathlib

/-!
Shallow embedding of the iterative RAG search orchestrator
(`src/libs/search_orchestrator.py`, mirrored line for line on the modelled
fragment by `RAGOrchestrator.search` in `src/libs/rag_orchestrator.py`),
of the footnote formatter (`src/libs/utils.py`), and of the streaming chat
history handling (`src/libs/web.py`).

Modelling conventions:
* Python strings are `String` / `List Char`; the Python builtins used by the
  code (`split`, `replace`, `strip`, `lower`, `startswith`, `float`) are
  re-implemented below by structural recursion so that concrete runs reduce.
* Python floats are `ℚ` (exact arithmetic; `inf`/`nan` and underscore digit
  separators accepted by Python's `float()` are not modelled).
* Python exceptions are `Except Unit` outcomes drawn from an explicit
  environment; the LLM and the Chroma collection are oracles in that
  environment, indexed by the round number and the query text.
-/

/- ### Python string builtins on `List Char` -/

/-- Python `str.split(sep)` for a one-character separator, as used with
`content.split("\n")` and `source.split("/")`. `""` splits to `[""]`. -/
def splitOnCharL (sep : Char) : List Char → List (List Char)
  | [] => [[]]
  | c :: rest =>
    match splitOnCharL sep rest with
    | [] => [[c]]
    | l :: ls => if c = sep then [] :: l :: ls else (c :: l) :: ls

/-- Python `str.startswith(pat)`: `startsWithL pat s` is true when `pat` is an
initial segment of `s`. -/
def startsWithL : List Char → List Char → Bool
  | [], _ => true
  | _ :: _, [] => false
  | p :: ps, c :: cs => p = c && startsWithL ps cs

/-- Worker for `removeAll`, with fuel so the recursion is structural; the fuel
is instantiated with the length of the string, which bounds the number of
steps because a match consumes at least one character. -/
def removeAllAux (pat : List Char) : ℕ → List Char → List Char
  | 0, cs => cs
  | _ + 1, [] => []
  | fuel + 1, c :: rest =>
    if startsWithL pat (c :: rest) && !pat.isEmpty then
      removeAllAux pat fuel ((c :: rest).drop pat.length)
    else
      c :: removeAllAux pat fuel rest

/-- Python `line.replace(pat, "")`: removes every occurrence of `pat`, the
form used by `evaluate_results` to cut the `SCORE:` / `ANALYSIS:` /
`REFINED_QUERY:` labels out of a line. -/
def removeAll (pat cs : List Char) : List Char := removeAllAux pat cs.length cs

/-- Python `str.strip()` with no argument (whitespace at both ends; only the
ASCII whitespace characters are modelled). -/
def stripL (cs : List Char) : List Char :=
  ((cs.dropWhile Char.isWhitespace).reverse.dropWhile Char.isWhitespace).reverse

/-- Python `str.lower()` (ASCII letters only, which covers the `"none"`
comparison the code performs). -/
def lowerL (cs : List Char) : List Char := cs.map Char.toLower

/-- Value of a digit string, most significant digit first. -/
def digitsVal (cs : List Char) : ℕ := cs.foldl (fun a c => a * 10 + (c.toNat - 48)) 0

/-- Unsigned mantissa of a Python float literal, as a numerator/denominator
pair: digits with at most one point, at least one digit overall
(`"5."`, `".5"`, `"0.85"`). -/
def parseMantissa (cs : List Char) : Option (ℕ × ℕ) :=
  match splitOnCharL '.' cs with
  | [ip] => if ip ≠ [] ∧ ip.all Char.isDigit then some (digitsVal ip, 1) else none
  | [ip, fp] =>
    if (ip ≠ [] ∨ fp ≠ []) ∧ ip.all Char.isDigit ∧ fp.all Char.isDigit then
      some (digitsVal ip * 10 ^ fp.length + digitsVal fp, 10 ^ fp.length)
    else none
  | _ => none

/-- Exponent part of a Python float literal: optional sign, nonempty digits. -/
def parseExpPart (cs : List Char) : Option ℤ :=
  let p : Bool × List Char :=
    match cs with
    | '-' :: t => (true, t)
    | '+' :: t => (false, t)
    | _ => (false, cs)
  if p.2 ≠ [] ∧ p.2.all Char.isDigit then
    some (if p.1 then -(digitsVal p.2 : ℤ) else (digitsVal p.2 : ℤ))
  else none

/-- Assemble `±mantissa · 10^exp` as a rational. Only `mkRat` and integer
arithmetic are used, so that concrete parses reduce inside the kernel. -/
def applySignExp (neg : Bool) (m : ℕ × ℕ) (k : ℤ) : ℚ :=
  let n : ℤ := if neg then -(m.1 : ℤ) else (m.1 : ℤ)
  match k with
  | Int.ofNat e => mkRat (n * (10 : ℤ) ^ e) m.2
  | Int.negSucc e => mkRat n (m.2 * 10 ^ (e + 1))

/-- `'E'` is accepted as the exponent marker just like `'e'`. -/
def expLower (c : Char) : Char := if c = 'E' then 'e' else c

/-- Model of Python `float(str)` on an already-stripped argument, returning
`none` where Python raises `ValueError`. Decimal and exponent forms are
modelled; `inf`/`nan` and underscore separators are not, and the value is
exact rather than rounded to binary64. -/
def parsePyFloat (cs : List Char) : Option ℚ :=
  let p : Bool × List Char :=
    match cs with
    | '-' :: t => (true, t)
    | '+' :: t => (false, t)
    | _ => (false, cs)
  match splitOnCharL 'e' (p.2.map expLower) with
  | [m] => (parseMantissa m).map (fun v => applySignExp p.1 v 0)
  | [m, e] =>
    match parseMantissa m, parseExpPart e with
    | some v, some k => some (applySignExp p.1 v k)
    | _, _ => none
  | _ => none

/- ### The Judge response parser (`SearchOrchestrator.evaluate_results`) -/

/-- `line.replace(label, "").strip()`, the value the code extracts from a
labelled line. -/
def labelValue (label line : List Char) : List Char := stripL (removeAll label line)

/-- One step of the `for line in lines` loop of `evaluate_results`
(src/libs/search_orchestrator.py lines 111-122). The accumulator is
`(score, analysis, refined_query)`; a `SCORE:` line that fails to parse as a
float resets the score to `0.0` (the `except ValueError` branch), and a
`REFINED_QUERY:` line equal to `"none"` case-insensitively leaves the refined
query unchanged. -/
def evalLine (acc : ℚ × String × String) (line : List Char) : ℚ × String × String :=
  if startsWithL "SCORE:".data line then
    match parsePyFloat (labelValue "SCORE:".data line) with
    | some v => (v, acc.2.1, acc.2.2)
    | none => (0, acc.2.1, acc.2.2)
  else if startsWithL "ANALYSIS:".data line then
    (acc.1, String.mk (labelValue "ANALYSIS:".data line), acc.2.2)
  else if startsWithL "REFINED_QUERY:".data line then
    let refined := labelValue "REFINED_QUERY:".data line
    if lowerL refined ≠ "none".data then (acc.1, acc.2.1, String.mk refined) else acc
  else acc

/-- `SearchOrchestrator.evaluate_results` as a function of the LLM reply
content. `none` models both the "no choices / empty content" early return and
a raised transport error, which coincide on everything the claims mention:
score `0.0` and the unchanged query (their analysis strings differ and are
not modelled apart). Returns `(relevance_score, analysis, refined_query)`. -/
def evaluate_results (content : Option String) (query : String) : ℚ × String × String :=
  match content with
  | none => (0, "Evaluation failed", query)
  | some c => (splitOnCharL '\n' c.data).foldl evalLine (0, "No analysis provided", query)

/- ### Data model (src/libs/search_orchestrator.py lines 12-32) -/

/-- The metadata fields `format_footnotes` (src/libs/utils.py) reads; other
keys of the Python metadata dict are never consumed by the modelled code.
`none` models an absent key, `some ""` an empty-string value (the two behave
differently under Python's `or`-chaining and `dict.get` default). -/
structure Metadata where
  sanitized_title : Option String := none
  top_title : Option String := none
  source : Option String := none
deriving DecidableEq, Repr

/-- A Chroma `QueryResult`: per-query lists of ids, documents, metadatas and
distances (the code always issues one query text, hence the nesting). The
orchestrator carries it opaquely apart from the empty fallback value. -/
structure QueryResult where
  ids : List (List String)
  embeddings : Option (List (List ℚ))
  documents : List (List String)
  metadatas : List (List Metadata)
  distances : List (List ℚ)
deriving DecidableEq, Repr

/-- The "properly typed empty QueryResult" built in the fallback branch of
`perform_iterative_search` (src/libs/search_orchestrator.py lines 254-263). -/
def emptyQueryResult : QueryResult :=
  { ids := [[]], embeddings := none, documents := [[]], metadatas := [[]], distances := [[]] }

/-- `SearchIteration` dataclass: one round record. -/
structure SearchIteration where
  query : String
  results : QueryResult
  relevance_score : ℚ
  iteration : ℕ
  refined_query : Option String := none
  analysis : Option String := none
deriving DecidableEq, Repr

/-- `SearchResult` dataclass: final result with iteration history. -/
structure SearchResult where
  best_results : QueryResult
  best_score : ℚ
  iterations : List SearchIteration
  final_query : String
  original_query : String
deriving DecidableEq, Repr

/- ### The iteration loop (`SearchOrchestrator.perform_iterative_search`) -/

/-- Oracle environment for one orchestrator invocation: the outcome of
`collection.query` for round `i` under the current query (`Except.error`
models a raised exception), the LLM reply content the Judge receives on
round `i` (`none` models no choices / a transport error), and the outcome of
the final fallback `collection.query`. -/
structure SearchEnv where
  retrieval : ℕ → String → Except Unit QueryResult
  llm : ℕ → String → Option String
  fallback : String → Except Unit QueryResult

/-- The loop variables of `perform_iterative_search` (lines 167-171):
`iterations`, `current_query`, `best_results`, `best_score` and the `results`
variable that retains the last successful retrieval. -/
structure LoopState where
  iterations : List SearchIteration
  current_query : String
  best_results : Option QueryResult
  best_score : ℚ
  results : Option QueryResult
deriving DecidableEq, Repr

/-- The Judge's `(relevance_score, analysis, refined_query)` triple for round
`i` under query `q`: `evaluate_results` applied to the LLM reply the
environment supplies for that round. -/
def evalAt (env : SearchEnv) (i : ℕ) (q : String) : ℚ × String × String :=
  evaluate_results (env.llm i q) q

/-- The body of a successful round before the stop checks (lines 193-221):
append the `SearchIteration` record, remember the raw results, and update the
best-so-far only on `relevance_score > best_score` (strict). -/
def recordRound (st : LoopState) (res : QueryResult) (ev : ℚ × String × String)
    (i : ℕ) : LoopState :=
  if st.best_score < ev.1 then
    { st with
      iterations := st.iterations ++
        [{ query := st.current_query, results := res, relevance_score := ev.1,
           iteration := i + 1, refined_query := some ev.2.2, analysis := some ev.2.1 }],
      results := some res, best_results := some res, best_score := ev.1 }
  else
    { st with
      iterations := st.iterations ++
        [{ query := st.current_query, results := res, relevance_score := ev.1,
           iteration := i + 1, refined_query := some ev.2.2, analysis := some ev.2.1 }],
      results := some res }

/-- The `for iteration in range(self.max_iterations)` loop of
`perform_iterative_search` (lines 178-240), with the remaining number of
rounds as fuel and `i` the 0-based round index. A retrieval exception breaks
the loop with the state as it stands; otherwise the round is recorded and the
loop stops on `score >= min_relevance_score`, then on
`current_query == refined_query`, else continues on the refined query. -/
def runRounds (env : SearchEnv) (minScore : ℚ) : ℕ → ℕ → LoopState → LoopState
  | 0, _, st => st
  | fuel + 1, i, st =>
    match env.retrieval i st.current_query with
    | .error _ => st
    | .ok res =>
      let ev := evalAt env i st.current_query
      if minScore ≤ ev.1 then recordRound st res ev i
      else if st.current_query = ev.2.2 then recordRound st res ev i
      else runRounds env minScore fuel (i + 1)
        { recordRound st res ev i with current_query := ev.2.2 }

/-- The loop variables as initialised on lines 167-171 of
`perform_iterative_search`. -/
def initState (query : String) : LoopState :=
  { iterations := [], current_query := query, best_results := none,
    best_score := 0, results := none }

/-- `SearchOrchestrator.perform_iterative_search` (lines 162-273), identical
on the modelled fragment to `RAGOrchestrator.search`
(src/libs/rag_orchestrator.py lines 148-243): the loop from the initial
state, then the fallback handling of lines 247-263 (one retrieval with the
original query, attempted only when no retrieval ever succeeded, the typed
empty result substituted if it too fails) and the `SearchResult` assembly of
lines 265-273. The `none, none` arm mirrors the fact that Python's
`best_results if best_results is not None else results` can rely on `results`
being set; that arm is unreachable. -/
def perform_iterative_search (env : SearchEnv) (max_iterations : ℕ)
    (min_relevance_score : ℚ) (query : String) : SearchResult :=
  let st := runRounds env min_relevance_score max_iterations 0 (initState query)
  let results : Option QueryResult :=
    if st.best_results = none ∧ st.results = none then
      match env.fallback query with
      | .ok r => some r
      | .error _ => some emptyQueryResult
    else st.results
  { best_results :=
      match st.best_results, results with
      | some b, _ => b
      | none, some r => r
      | none, none => emptyQueryResult
    best_score := st.best_score
    iterations := st.iterations
    final_query := st.current_query
    original_query := query }

/- ### Derived descriptions of a run, used to state the claims -/

/-- The refined query the Judge produces on round `i` for query `q`. -/
def nextQuery (env : SearchEnv) (i : ℕ) (q : String) : String :=
  (evalAt env i q).2.2

/-- The query active at the start of round `i` (0-based), assuming every
earlier round completed and continued. -/
def queryAt (env : SearchEnv) (q : String) : ℕ → String
  | 0 => q
  | i + 1 => nextQuery env i (queryAt env q i)

/-- The relevance score the Judge produces on round `i`, under `queryAt`. -/
def scoreAt (env : SearchEnv) (q : String) (i : ℕ) : ℚ :=
  (evalAt env i (queryAt env q i)).1

/-- Round `i` completes and none of the three stop conditions fires: the
retrieval succeeds, the score is below the threshold, and the Judge proposes
a genuinely different query. -/
def roundContinues (env : SearchEnv) (ms : ℚ) (q : String) (i : ℕ) : Prop :=
  (∃ r, env.retrieval i (queryAt env q i) = Except.ok r) ∧
    scoreAt env q i < ms ∧ queryAt env q (i + 1) ≠ queryAt env q i

/-- The maximum the spec invariant refers to, as the code computes it: a left
fold of `max` seeded with the initial `best_score = 0.0`. -/
def maxScore (its : List SearchIteration) : ℚ :=
  (its.map SearchIteration.relevance_score).foldl max 0

/-- The earliest iteration whose score equals `maxScore`. -/
def firstBest (its : List SearchIteration) : Option SearchIteration :=
  its.find? (fun it => decide (it.relevance_score = maxScore its))

/- ### Concrete environments used to exercise the orchestrator -/

/-- A sample non-empty retrieval result. -/
def resA : QueryResult :=
  { ids := [["a"]], embeddings := none, documents := [["docA"]],
    metadatas := [[{}]], distances := [[mkRat 1 10]] }

/-- A second, distinct sample retrieval result. -/
def resB : QueryResult :=
  { ids := [["b"]], embeddings := none, documents := [["docB"]],
    metadatas := [[{}]], distances := [[mkRat 2 10]] }

/-- A third, distinct sample retrieval result. -/
def resC : QueryResult :=
  { ids := [["c"]], embeddings := none, documents := [["docC"]],
    metadatas := [[{}]], distances := [[mkRat 3 10]] }

/-- The Judge parses `SCORE: -0.5` (out of the nominal range) and proposes no
refinement; retrieval always succeeds. -/
def envNegScore : SearchEnv :=
  { retrieval := fun _ _ => Except.ok resA,
    llm := fun _ _ => some "SCORE: -0.5\nREFINED_QUERY: None",
    fallback := fun _ => Except.ok resA }

/-- Two rounds with score `0.0` and distinct result sets: round 1 refines the
query, round 2 proposes no refinement. -/
def envZeroScores : SearchEnv :=
  { retrieval := fun i _ => if i = 0 then Except.ok resA else Except.ok resB,
    llm := fun i _ =>
      if i = 0 then some "SCORE: 0.0\nREFINED_QUERY: q2"
      else some "SCORE: 0.0\nREFINED_QUERY: None",
    fallback := fun _ => Except.ok resC }

/-- Scores `0.5, 0.8, 0.8` over three rounds with distinct result sets; the
two `0.8` rounds tie. -/
def envTie : SearchEnv :=
  { retrieval := fun i _ =>
      if i = 0 then Except.ok resA else if i = 1 then Except.ok resB else Except.ok resC,
    llm := fun i _ =>
      if i = 0 then some "SCORE: 0.5\nREFINED_QUERY: q2"
      else if i = 1 then some "SCORE: 0.8\nREFINED_QUERY: q3"
      else some "SCORE: 0.8\nREFINED_QUERY: None",
    fallback := fun _ => Except.ok resC }

/-- Round 1 succeeds with score `0.1` and a refined query; every later
retrieval raises; the fallback would succeed. -/
def envRound2Fails : SearchEnv :=
  { retrieval := fun i _ => if i = 0 then Except.ok resA else Except.error (),
    llm := fun _ _ => some "SCORE: 0.1\nREFINED_QUERY: q2",
    fallback := fun _ => Except.ok resC }

/-- Every retrieval raises; the fallback retrieval succeeds. -/
def envAllFailFallbackOk : SearchEnv :=
  { retrieval := fun _ _ => Except.error (),
    llm := fun _ _ => none,
    fallback := fun _ => Except.ok resA }

/-- Every retrieval raises, the fallback included. -/
def envAllFail : SearchEnv :=
  { retrieval := fun _ _ => Except.error (),
    llm := fun _ _ => none,
    fallback := fun _ => Except.error () }

/-- Scores `0.4, 0.75, 0.9` over three rounds (the spec's `STOP_SATISFIED`
example with threshold `0.7`). -/
def envSat : SearchEnv :=
  { retrieval := fun _ _ => Except.ok resA,
    llm := fun i _ =>
      if i = 0 then some "SCORE: 0.4\nREFINED_QUERY: q2"
      else if i = 1 then some "SCORE: 0.75\nREFINED_QUERY: q3"
      else some "SCORE: 0.9\nREFINED_QUERY: None",
    fallback := fun _ => Except.ok resA }

/-- Round 1 scores `0.4` and answers `REFINED_QUERY: None`. -/
def envRefineNone : SearchEnv :=
  { retrieval := fun _ _ => Except.ok resA,
    llm := fun _ _ => some "SCORE: 0.4\nREFINED_QUERY: None",
    fallback := fun _ => Except.ok resA }

/-- Every round scores `0.4` and refines the query to `q2`. -/
def envRefineQ2 : SearchEnv :=
  { retrieval := fun _ _ => Except.ok resA,
    llm := fun _ _ => some "SCORE: 0.4\nREFINED_QUERY: q2",
    fallback := fun _ => Except.ok resA }

/-- The iteration record produced by round 2 of `envTie` under threshold `2`
(the first of the two `0.8`-scoring rounds). -/
def itTie : SearchIteration :=
  { query := "q2", results := resB, relevance_score := mkRat 4 5, iteration := 2,
    refined_query := some "q3", analysis := some "No analysis provided" }

/- ### Specification-style reading of the Judge parser, for comparison -/

/-- The last line of `lines` that starts with `label`. -/
def lastLabelled (label : List Char) (lines : List (List Char)) : Option (List Char) :=
  (lines.filter (fun l => startsWithL label l)).getLast?

/-- Score of the last `SCORE:` line (`0.0` when absent or unparsable). -/
def specScore (lines : List (List Char)) : ℚ :=
  match lastLabelled "SCORE:".data lines with
  | none => 0
  | some l => (parsePyFloat (labelValue "SCORE:".data l)).getD 0

/-- Analysis text of the last `ANALYSIS:` line (placeholder when absent). -/
def specAnalysis (lines : List (List Char)) : String :=
  match lastLabelled "ANALYSIS:".data lines with
  | none => "No analysis provided"
  | some l => String.mk (labelValue "ANALYSIS:".data l)

/-- Value of the last `REFINED_QUERY:` line whose value is not `"none"`
case-insensitively (the current query when there is no such line). -/
def specRefined (lines : List (List Char)) (q : String) : String :=
  match (lines.filter (fun l => startsWithL "REFINED_QUERY:".data l &&
      decide (lowerL (labelValue "REFINED_QUERY:".data l) ≠ "none".data))).getLast? with
  | none => q
  | some l => String.mk (labelValue "REFINED_QUERY:".data l)

/- ### The footnote formatter (`format_footnotes`, src/libs/utils.py 14-36) -/

/-- Python `a or b` for optional strings: `None` and `""` are falsy. -/
def orFalsy (o : Option String) (d : String) : String :=
  match o with
  | some s => if s = "" then d else s
  | none => d

/-- `meta.get("sanitized_title") or meta.get("top_title") or "Untitled"`. -/
def footnoteTitle (m : Metadata) : String :=
  orFalsy m.sanitized_title (orFalsy m.top_title "Untitled")

/-- `meta.get("source", "unknown.md").split("/")[-1]`. -/
def footnoteSource (m : Metadata) : String :=
  String.mk ((splitOnCharL '/' (m.source.getD "unknown.md").data).getLastD [])

/-- The `(title, source)` pair the code deduplicates on (before stripping). -/
def footnoteKey (m : Metadata) : String × String :=
  (footnoteTitle m, footnoteSource m)

/-- Python `str.strip()` on `String`. -/
def stripS (s : String) : String := String.mk (stripL s.data)

/-- The `for meta in metadatas` loop of `format_footnotes`: `seen` is the
membership set, `numbered` the accumulated `(title.strip(), source.strip())`
list. -/
def footnoteLoop : List (String × String) → List (String × String) → List Metadata →
    List (String × String)
  | _, numbered, [] => numbered
  | seen, numbered, m :: rest =>
    if footnoteKey m ∈ seen then footnoteLoop seen numbered rest
    else footnoteLoop (seen ++ [footnoteKey m])
      (numbered ++ [(stripS (footnoteKey m).1, stripS (footnoteKey m).2)]) rest

/-- `format_footnotes` (src/libs/utils.py lines 14-36): deduplicate, then
render `[n] "title", `source`` with 1-based sequential numbering, joined by
newlines. -/
def format_footnotes (metas : List Metadata) : String :=
  String.intercalate "\n"
    ((footnoteLoop [] [] metas).enum.map
      (fun p => "[" ++ toString (p.1 + 1) ++ "] \"" ++ p.2.1 ++ "\", `" ++ p.2.2 ++ "`"))

/-- Specification-style first-seen deduplication: keep each key's first
occurrence, drop the later ones. -/
def dedupFirst : List (String × String) → List (String × String)
  | [] => []
  | k :: ks => k :: dedupFirst (ks.filter (fun x => decide (x ≠ k)))
termination_by l => l.length
decreasing_by
  simp only [List.length_cons]
  exact Nat.lt_succ_of_le (List.length_filter_le _ _)

/-- The metadata list of the C8 example: titles `A`, `A`, `B` with sources
`x/doc.md`, `doc.md`, `doc.md`. -/
def metaA1 : Metadata := { sanitized_title := some "A", source := some "x/doc.md" }

def metaA2 : Metadata := { sanitized_title := some "A", source := some "doc.md" }

def metaB : Metadata := { sanitized_title := some "B", source := some "doc.md" }

/- ### Streaming chat history (`WebChatManager.generate_response_stream`) -/

/-- One entry of `conversation_history`. -/
structure ChatMsg where
  role : String
  content : String
deriving DecidableEq, Repr

/-- Environment for one streaming turn: whether the pre-stream steps
(retrieval, prompt building, opening the completion stream, lines 201-229)
succeed, the per-chunk delta contents delivered before any failure (`none`
models a chunk with no content), whether the stream then raises, and the
exception text. -/
structure StreamEnv where
  preOk : Bool
  chunks : List (Option String)
  streamFails : Bool
  errorText : String

/-- `WebChatManager._trim_conversation_history` (src/libs/web.py 253-259):
drop the oldest messages once the count exceeds `max_history`. -/
def trimHistory (max_history : ℕ) (h : List ChatMsg) : List ChatMsg :=
  if max_history < h.length then h.drop (h.length - max_history) else h

/-- `WebChatManager.generate_response_stream` (src/libs/web.py 191-251),
without storage (`chat_db_path` unset, so `_save_message` is a no-op and the
returned chat id is `None`). Returns the sequence of yielded strings and the
resulting `conversation_history`. The user message is appended first; the
assembled response is appended only on the no-exception path after the chunk
loop, and only when non-empty; any exception is caught, yielding an error
string instead. -/
def generate_response_stream (max_history : ℕ) (history : List ChatMsg)
    (user_message : String) (env : StreamEnv) : List String × List ChatMsg :=
  let history1 := history ++ [{ role := "user", content := user_message }]
  if env.preOk then
    let delivered := env.chunks.filterMap id
    let full := String.join delivered
    if env.streamFails then (delivered ++ ["Error: " ++ env.errorText], history1)
    else if full ≠ "" then
      (delivered,
        trimHistory max_history (history1 ++ [{ role := "assistant", content := full }]))
    else (delivered, history1)
  else (["Error: " ++ env.errorText], history1)

/-- A streaming turn that delivers two content chunks (and one empty chunk)
and then raises. -/
def envStreamFail : StreamEnv :=
  { preOk := true, chunks := [some "par", none, some "tial"],
    streamFails := true, errorText := "boom" }

/- ### Elementary lemmas about the loop step -/

theorem recordRound_current_query (st : LoopState) (res : QueryResult)
    (ev : ℚ × String × String) (i : ℕ) :
    (recordRound st res ev i).current_query = st.current_query := by
  unfold recordRound
  split <;> rfl

theorem recordRound_iterations (st : LoopState) (res : QueryResult)
    (ev : ℚ × String × String) (i : ℕ) :
    (recordRound st res ev i).iterations = st.iterations ++
      [{ query := st.current_query, results := res, relevance_score := ev.1,
         iteration := i + 1, refined_query := some ev.2.2, analysis := some ev.2.1 }] := by
  unfold recordRound
  split <;> rfl

theorem runRounds_error {env : SearchEnv} {ms : ℚ} {fuel i : ℕ} {st : LoopState} {e : Unit}
    (h : env.retrieval i st.current_query = Except.error e) :
    runRounds env ms (fuel + 1) i st = st := by
  unfold runRounds
  rw [h]

theorem runRounds_stop_sat {env : SearchEnv} {ms : ℚ} {fuel i : ℕ} {st : LoopState}
    {res : QueryResult} (hr : env.retrieval i st.current_query = Except.ok res)
    (hs : ms ≤ (evalAt env i st.current_query).1) :
    runRounds env ms (fuel + 1) i st =
      recordRound st res (evalAt env i st.current_query) i := by
  unfold runRounds
  rw [hr]
  simp only [if_pos hs]

theorem runRounds_stop_refine {env : SearchEnv} {ms : ℚ} {fuel i : ℕ} {st : LoopState}
    {res : QueryResult} (hr : env.retrieval i st.current_query = Except.ok res)
    (hs : ¬ ms ≤ (evalAt env i st.current_query).1)
    (he : st.current_query = (evalAt env i st.current_query).2.2) :
    runRounds env ms (fuel + 1) i st =
      recordRound st res (evalAt env i st.current_query) i := by
  unfold runRounds
  rw [hr]
  simp only [if_neg hs, if_pos he]

theorem runRounds_continue {env : SearchEnv} {ms : ℚ} {fuel i : ℕ} {st : LoopState}
    {res : QueryResult} (hr : env.retrieval i st.current_query = Except.ok res)
    (hs : ¬ ms ≤ (evalAt env i st.current_query).1)
    (he : ¬ st.current_query = (evalAt env i st.current_query).2.2) :
    runRounds env ms (fuel + 1) i st = runRounds env ms fuel (i + 1)
      { recordRound st res (evalAt env i st.current_query) i with
        current_query := (evalAt env i st.current_query).2.2 } := by
  conv_lhs => unfold runRounds
  rw [hr]
  simp only [if_neg hs, if_neg he]

/- ### Facts about folded maxima -/

theorem le_foldl_max (l : List ℚ) : ∀ b : ℚ, b ≤ l.foldl max b := by
  induction l with
  | nil => intro b; exact le_refl b
  | cons x xs ih => intro b; exact le_trans (le_max_left b x) (ih (max b x))

theorem mem_le_foldl_max {a : ℚ} {l : List ℚ} (b : ℚ) (h : a ∈ l) : a ≤ l.foldl max b := by
  induction l generalizing b with
  | nil => cases h
  | cons x xs ih =>
    rcases List.mem_cons.mp h with h' | h'
    · subst h'
      exact le_trans (le_max_right b a) (le_foldl_max xs (max b a))
    · exact ih (max b x) h'

theorem foldl_max_of_le {l : List ℚ} {b : ℚ} (h : ∀ a ∈ l, a ≤ b) : l.foldl max b = b := by
  induction l with
  | nil => rfl
  | cons x xs ih =>
    have hx : max b x = b := max_eq_left (h x (List.mem_cons_self x xs))
    have := ih (fun a ha => h a (List.mem_cons_of_mem x ha))
    simpa [hx] using this

theorem foldl_max_attained (l : List ℚ) : ∀ b : ℚ, l.foldl max b = b ∨ l.foldl max b ∈ l := by
  induction l with
  | nil => intro b; left; rfl
  | cons x xs ih =>
    intro b
    rcases ih (max b x) with h | h
    · rcases le_total x b with hxb | hbx
      · left
        simpa [max_eq_left hxb] using h
      · right
        rw [List.foldl_cons, h, max_eq_right hbx]
        exact List.mem_cons_self x xs
    · right
      exact List.mem_cons_of_mem x h

theorem maxScore_append (its : List SearchIteration) (it : SearchIteration) :
    maxScore (its ++ [it]) = max (maxScore its) it.relevance_score := by
  simp [maxScore, List.foldl_append]

theorem maxScore_nonneg (its : List SearchIteration) : 0 ≤ maxScore its :=
  le_foldl_max _ 0

theorem score_le_maxScore {it : SearchIteration} {its : List SearchIteration}
    (h : it ∈ its) : it.relevance_score ≤ maxScore its :=
  mem_le_foldl_max 0 (List.mem_map_of_mem SearchIteration.relevance_score h)

theorem maxScore_attained {its : List SearchIteration} (h : 0 < maxScore its) :
    ∃ it ∈ its, it.relevance_score = maxScore its := by
  rcases foldl_max_attained (its.map SearchIteration.relevance_score) 0 with h' | h'
  · exact absurd h (by rw [maxScore, h']; exact lt_irrefl 0)
  · rcases List.mem_map.mp h' with ⟨it, hmem, heq⟩
    exact ⟨it, hmem, heq⟩

/- ### The best-so-far invariant of the loop state -/

/-- The relationship the loop maintains between its variables: `best_score`
is the `max`-fold of the recorded scores seeded with the initial `0.0`;
`best_results` holds the results of the first iteration attaining a strictly
positive `best_score` (and is unset otherwise); `results` holds the results
of the last recorded iteration. -/
def LoopInv (st : LoopState) : Prop :=
  st.best_score = maxScore st.iterations ∧
  st.best_results =
    (if 0 < st.best_score then (firstBest st.iterations).map SearchIteration.results
     else none) ∧
  st.results = st.iterations.getLast?.map SearchIteration.results

theorem LoopInv_initState (q : String) : LoopInv (initState q) := by
  refine ⟨rfl, ?_, rfl⟩
  simp [initState, firstBest, maxScore]

theorem firstBest_append_of_le {its : List SearchIteration} {it : SearchIteration}
    (hle : it.relevance_score ≤ maxScore its) (hpos : 0 < maxScore its) :
    firstBest (its ++ [it]) = firstBest its := by
  unfold firstBest
  have hmax : maxScore (its ++ [it]) = maxScore its := by
    rw [maxScore_append]
    exact max_eq_left hle
  rw [hmax, List.find?_append]
  obtain ⟨j, hjmem, hjeq⟩ := maxScore_attained hpos
  have hsome : (List.find? (fun x =>
      decide (x.relevance_score = maxScore its)) its).isSome := by
    rw [List.find?_isSome]
    exact ⟨j, hjmem, by simpa using hjeq⟩
  obtain ⟨v, hv⟩ := Option.isSome_iff_exists.mp hsome
  rw [hv]
  rfl

theorem LoopInv_recordRound {st : LoopState} (h : LoopInv st) (res : QueryResult)
    (ev : ℚ × String × String) (i : ℕ) : LoopInv (recordRound st res ev i) := by
  obtain ⟨h1, h2, h3⟩ := h
  unfold recordRound LoopInv
  by_cases hlt : st.best_score < ev.1
  · rw [if_pos hlt]
    have hms : maxScore (st.iterations ++
        [{ query := st.current_query, results := res, relevance_score := ev.1,
           iteration := i + 1, refined_query := some ev.2.2,
           analysis := some ev.2.1 }]) = ev.1 := by
      rw [maxScore_append]
      dsimp only
      rw [← h1]
      exact max_eq_right (le_of_lt hlt)
    refine ⟨?_, ?_, ?_⟩ <;> dsimp only
    · rw [hms]
    · have hpos : 0 < ev.1 := lt_of_le_of_lt (h1 ▸ maxScore_nonneg st.iterations) hlt
      rw [if_pos hpos]
      have hnone :
          List.find? (fun it => decide (it.relevance_score = ev.1)) st.iterations = none := by
        rw [List.find?_eq_none]
        intro x hx hdec
        have hle : x.relevance_score ≤ st.best_score := h1 ▸ score_le_maxScore hx
        rw [decide_eq_true_iff] at hdec
        exact absurd (hdec ▸ hle) (not_le_of_lt hlt)
      rw [firstBest, hms, List.find?_append, hnone]
      simp [List.find?]
    · rw [List.getLast?_concat]
      rfl
  · rw [if_neg hlt]
    push_neg at hlt
    have hmax : maxScore (st.iterations ++
        [{ query := st.current_query, results := res, relevance_score := ev.1,
           iteration := i + 1, refined_query := some ev.2.2,
           analysis := some ev.2.1 }]) = maxScore st.iterations := by
      rw [maxScore_append]
      dsimp only
      exact max_eq_left (h1 ▸ hlt)
    refine ⟨?_, ?_, ?_⟩ <;> dsimp only
    · rw [hmax, h1]
    · rw [h2]
      by_cases hpos : 0 < st.best_score
      · rw [if_pos hpos, if_pos hpos,
          firstBest_append_of_le (h1 ▸ hlt) (h1 ▸ hpos)]
      · rw [if_neg hpos, if_neg hpos]
    · rw [List.getLast?_concat]
      rfl

theorem LoopInv_setQuery {st : LoopState} (h : LoopInv st) (q : String) :
    LoopInv { st with current_query := q } := h

theorem LoopInv_runRounds (env : SearchEnv) (ms : ℚ) :
    ∀ fuel i st, LoopInv st → LoopInv (runRounds env ms fuel i st) := by
  intro fuel
  induction fuel with
  | zero => intro i st h; exact h
  | succ f ih =>
    intro i st h
    cases hres : env.retrieval i st.current_query with
    | error e => rw [runRounds_error hres]; exact h
    | ok res =>
      by_cases hs : ms ≤ (evalAt env i st.current_query).1
      · rw [runRounds_stop_sat hres hs]
        exact LoopInv_recordRound h res _ i
      · by_cases he : st.current_query = (evalAt env i st.current_query).2.2
        · rw [runRounds_stop_refine hres hs he]
          exact LoopInv_recordRound h res _ i
        · rw [runRounds_continue hres hs he]
          exact ih (i + 1) _ (LoopInv_setQuery (LoopInv_recordRound h res _ i) _)

/- ### Composition lemmas for whole runs -/

theorem runRounds_zero {env : SearchEnv} {ms : ℚ} {i : ℕ} {st : LoopState} :
    runRounds env ms 0 i st = st := rfl

theorem runRounds_continue_many (env : SearchEnv) (ms : ℚ) (q : String) :
    ∀ (k i fuel : ℕ) (st : LoopState), st.current_query = queryAt env q i →
      (∀ j, i ≤ j → j < i + k → roundContinues env ms q j) → k ≤ fuel →
      ∃ st', runRounds env ms fuel i st = runRounds env ms (fuel - k) (i + k) st' ∧
        st'.current_query = queryAt env q (i + k) ∧
        st'.iterations.length = st.iterations.length + k := by
  intro k
  induction k with
  | zero =>
    intro i fuel st hq hcont hk
    exact ⟨st, by simp, by simpa using hq, by simp⟩
  | succ k ih =>
    intro i fuel st hq hcont hfuel
    obtain ⟨⟨res, hres⟩, hscore, hne⟩ := hcont i (le_refl i) (by omega)
    obtain ⟨f, rfl⟩ : ∃ f, fuel = f + 1 := ⟨fuel - 1, by omega⟩
    have hres' : env.retrieval i st.current_query = Except.ok res := by
      rw [hq]; exact hres
    have hs' : ¬ ms ≤ (evalAt env i st.current_query).1 := by
      rw [hq]; exact not_le_of_lt hscore
    have he' : ¬ st.current_query = (evalAt env i st.current_query).2.2 := by
      rw [hq]
      intro hcontra
      exact hne hcontra.symm
    rw [runRounds_continue hres' hs' he']
    have hqC : ({ recordRound st res (evalAt env i st.current_query) i with
        current_query := (evalAt env i st.current_query).2.2 } : LoopState).current_query =
        queryAt env q (i + 1) := by
      dsimp only
      rw [hq]
      rfl
    obtain ⟨st', heq, hq', hlen⟩ := ih (i + 1) f _ hqC
      (fun j hj1 hj2 => hcont j (by omega) (by omega)) (by omega)
    refine ⟨st', ?_, ?_, ?_⟩
    · rw [heq, show f - k = f + 1 - (k + 1) by omega, show i + 1 + k = i + (k + 1) by omega]
    · rw [show i + (k + 1) = i + 1 + k by omega]
      exact hq'
    · rw [hlen]
      dsimp only
      rw [recordRound_iterations]
      simp
      omega

/- ### Projections of the assembled `SearchResult` -/

theorem search_iterations (env : SearchEnv) (mi : ℕ) (ms : ℚ) (q : String) :
    (perform_iterative_search env mi ms q).iterations =
      (runRounds env ms mi 0 (initState q)).iterations := rfl

theorem search_best_score (env : SearchEnv) (mi : ℕ) (ms : ℚ) (q : String) :
    (perform_iterative_search env mi ms q).best_score =
      (runRounds env ms mi 0 (initState q)).best_score := rfl

theorem search_final_query (env : SearchEnv) (mi : ℕ) (ms : ℚ) (q : String) :
    (perform_iterative_search env mi ms q).final_query =
      (runRounds env ms mi 0 (initState q)).current_query := rfl

theorem search_original_query (env : SearchEnv) (mi : ℕ) (ms : ℚ) (q : String) :
    (perform_iterative_search env mi ms q).original_query = q := rfl

theorem search_best_results_of_some {env : SearchEnv} {mi : ℕ} {ms : ℚ} {q : String}
    {b : QueryResult} (h : (runRounds env ms mi 0 (initState q)).best_results = some b) :
    (perform_iterative_search env mi ms q).best_results = b := by
  unfold perform_iterative_search
  dsimp only
  rw [h]

theorem search_best_results_of_results {env : SearchEnv} {mi : ℕ} {ms : ℚ} {q : String}
    {r : QueryResult} (hb : (runRounds env ms mi 0 (initState q)).best_results = none)
    (hr : (runRounds env ms mi 0 (initState q)).results = some r) :
    (perform_iterative_search env mi ms q).best_results = r := by
  unfold perform_iterative_search
  dsimp only
  rw [hb, hr]
  simp

/- ### Claim C1 -/

/-- C1, counterexample: a recorded round whose free-text `SCORE:` parses to
`-0.5` (outside the nominal range, not clamped) leaves `best_score` at its
initial `0.0`, which differs from the maximum (`-0.5`) of the recorded
iterations' scores — so `best_score` is not always that maximum. -/
theorem C1_counterexample :
    (perform_iterative_search envNegScore 3 (mkRat 7 10) "q").iterations.map
        SearchIteration.relevance_score = [mkRat (-1) 2] ∧
    (perform_iterative_search envNegScore 3 (mkRat 7 10) "q").best_score = 0 ∧
    mkRat (-1) 2 ≠ (0 : ℚ) := by decide

/-- C1 (amended): for every invocation, `best_score` equals the `max`-fold of
the recorded iterations' relevance scores seeded with the initial `0.0`; this
is the maximum of the scores whenever that maximum is at least `0.0` (in
particular for nominal-range scores), but a session whose scores are all
negative reports `best_score = 0.0` instead of the true maximum. -/
theorem C1_best_score_eq_max_fold (env : SearchEnv) (mi : ℕ) (ms : ℚ) (q : String) :
    (perform_iterative_search env mi ms q).best_score =
      maxScore (perform_iterative_search env mi ms q).iterations :=
  (LoopInv_runRounds env ms mi 0 (initState q) (LoopInv_initState q)).1

/- ### Claim C2 -/

/-- C2, counterexample: two rounds both scoring `0.0` with distinct result
sets. The earliest iteration achieving the maximum (`0.0`) is round 1
(`resA`), but the returned `best_results` is round 2's `resB`: with no
strictly positive score the best-update never fires and the code falls back
to the last retrieval, not the earliest maximal one. -/
theorem C2_counterexample :
    (perform_iterative_search envZeroScores 3 (mkRat 7 10) "q").best_results = resB ∧
    (firstBest (perform_iterative_search envZeroScores 3 (mkRat 7 10) "q").iterations).map
        SearchIteration.results = some resA ∧
    resA ≠ resB := by decide

/-- C2 (amended): whenever the maximum recorded score is strictly greater
than `0.0` (so the strict-greater-than update fires at least once), the
returned `best_results` is the result set of the earliest iteration whose
score equals that maximum; a later tying iteration never displaces it. -/
theorem C2_best_results_first_max_when_positive (env : SearchEnv) (mi : ℕ) (ms : ℚ)
    (q : String) (it : SearchIteration)
    (hpos : 0 < maxScore (perform_iterative_search env mi ms q).iterations)
    (hfind : firstBest (perform_iterative_search env mi ms q).iterations = some it) :
    (perform_iterative_search env mi ms q).best_results = it.results := by
  obtain ⟨h1, h2, h3⟩ := LoopInv_runRounds env ms mi 0 (initState q) (LoopInv_initState q)
  have hpos' : 0 < (runRounds env ms mi 0 (initState q)).best_score := by
    rw [h1]; exact hpos
  rw [if_pos hpos'] at h2
  apply search_best_results_of_some
  rw [h2]
  have hfind' : firstBest (runRounds env ms mi 0 (initState q)).iterations = some it := hfind
  rw [hfind']
  rfl

/-- C2, witness: scores `0.5, 0.8, 0.8` under an unreachable threshold; the
best result set is round 2's (`resB`), the first of the tying `0.8` rounds. -/
theorem C2_witness :
    0 < maxScore (perform_iterative_search envTie 3 (mkRat 2 1) "q").iterations ∧
    (perform_iterative_search envTie 3 (mkRat 2 1) "q").best_results = itTie.results ∧
    itTie.results = resB :=
  ⟨by decide,
   C2_best_results_first_max_when_positive envTie 3 (mkRat 2 1) "q" itTie
     (by decide) (by decide),
   by decide⟩

/- ### Claim C10 -/

/-- C10: when at least one round completed but no recorded score is strictly
positive, the best-update never fires: `best_score` stays `0.0` and the
returned `best_results` is the result set of the last recorded round (the
last successful retrieval), not the first. -/
theorem C10_best_results_last_when_no_positive_score (env : SearchEnv) (mi : ℕ)
    (ms : ℚ) (q : String)
    (hne : (perform_iterative_search env mi ms q).iterations ≠ [])
    (hle : ∀ it ∈ (perform_iterative_search env mi ms q).iterations,
      it.relevance_score ≤ 0) :
    (perform_iterative_search env mi ms q).best_score = 0 ∧
    (perform_iterative_search env mi ms q).iterations.getLast?.map
        SearchIteration.results = some (perform_iterative_search env mi ms q).best_results := by
  obtain ⟨h1, h2, h3⟩ := LoopInv_runRounds env ms mi 0 (initState q) (LoopInv_initState q)
  have hmax0 : maxScore (runRounds env ms mi 0 (initState q)).iterations = 0 := by
    apply foldl_max_of_le
    intro a ha
    obtain ⟨it, hitmem, rfl⟩ := List.mem_map.mp ha
    exact hle it hitmem
  have hbs : (runRounds env ms mi 0 (initState q)).best_score = 0 := by rw [h1, hmax0]
  have hbr : (runRounds env ms mi 0 (initState q)).best_results = none := by
    rw [h2, hbs]
    simp
  have hlast : ∃ r, (runRounds env ms mi 0 (initState q)).iterations.getLast?.map
      SearchIteration.results = some r := by
    cases hgl : (runRounds env ms mi 0 (initState q)).iterations.getLast? with
    | none => exact absurd (List.getLast?_eq_none_iff.mp hgl) hne
    | some it => exact ⟨it.results, rfl⟩
  obtain ⟨r, hr⟩ := hlast
  have hres : (runRounds env ms mi 0 (initState q)).results = some r := by rw [h3]; exact hr
  refine ⟨hbs, ?_⟩
  rw [search_best_results_of_results hbr hres]
  exact hr

/-- C10, witness: two rounds scoring `0.0` with distinct result sets; the
returned best result set is the second round's `resB`, the last successful
retrieval (showing the fallback is the last such round, not the first). -/
theorem C10_witness :
    (perform_iterative_search envZeroScores 3 (mkRat 7 10) "q").iterations ≠ [] ∧
    (∀ it ∈ (perform_iterative_search envZeroScores 3 (mkRat 7 10) "q").iterations,
      it.relevance_score ≤ 0) ∧
    (perform_iterative_search envZeroScores 3 (mkRat 7 10) "q").best_score = 0 ∧
    (perform_iterative_search envZeroScores 3 (mkRat 7 10) "q").iterations.getLast?.map
        SearchIteration.results =
      some (perform_iterative_search envZeroScores 3 (mkRat 7 10) "q").best_results :=
  ⟨by decide, by decide,
   (C10_best_results_last_when_no_positive_score envZeroScores 3 (mkRat 7 10) "q"
     (by decide) (by decide)).1,
   (C10_best_results_last_when_no_positive_score envZeroScores 3 (mkRat 7 10) "q"
     (by decide) (by decide)).2⟩

/- ### Further projections of the round step -/

theorem recordRound_best_results (st : LoopState) (res : QueryResult)
    (ev : ℚ × String × String) (i : ℕ) :
    (recordRound st res ev i).best_results =
      if st.best_score < ev.1 then some res else st.best_results := by
  unfold recordRound
  split <;> rfl

theorem recordRound_results (st : LoopState) (res : QueryResult)
    (ev : ℚ × String × String) (i : ℕ) :
    (recordRound st res ev i).results = some res := by
  unfold recordRound
  split <;> rfl

/- ### Claim C3 -/

/-- C3: the error-handling contract. (1) A retrieval exception on round 2
after a completed round 1 ends the loop: round 1's result set is returned
(whether or not its score beat `0.0`) and exactly one iteration is recorded.
(2) When round 1's retrieval already raises, exactly one fallback retrieval
with the original query is attempted and its result returned unscored
(`best_score = 0.0`, no iterations). (3) When the fallback also raises, the
typed empty result set is returned instead of an exception. -/
theorem C3_error_handling_contract :
    (∀ (env : SearchEnv) (ms : ℚ) (q : String) (mi : ℕ) (res1 : QueryResult),
      2 ≤ mi →
      env.retrieval 0 q = Except.ok res1 →
      (evalAt env 0 q).1 < ms →
      (evalAt env 0 q).2.2 ≠ q →
      (∃ e, env.retrieval 1 ((evalAt env 0 q).2.2) = Except.error e) →
      (perform_iterative_search env mi ms q).best_results = res1 ∧
        (perform_iterative_search env mi ms q).iterations.length = 1) ∧
    (∀ (env : SearchEnv) (ms : ℚ) (q : String) (mi : ℕ) (rf : QueryResult),
      (∃ e, env.retrieval 0 q = Except.error e) →
      env.fallback q = Except.ok rf →
      perform_iterative_search env mi ms q =
        { best_results := rf, best_score := 0, iterations := [],
          final_query := q, original_query := q }) ∧
    (∀ (env : SearchEnv) (ms : ℚ) (q : String) (mi : ℕ),
      (∃ e, env.retrieval 0 q = Except.error e) →
      (∃ e, env.fallback q = Except.error e) →
      perform_iterative_search env mi ms q =
        { best_results := emptyQueryResult, best_score := 0, iterations := [],
          final_query := q, original_query := q }) := by
  refine ⟨?_, ?_, ?_⟩
  · rintro env ms q mi res1 hmi hok hlt hneq ⟨e, he⟩
    obtain ⟨f, rfl⟩ : ∃ f, mi = f + 1 + 1 := ⟨mi - 2, by omega⟩
    have hok' : env.retrieval 0 (initState q).current_query = Except.ok res1 := hok
    have hs' : ¬ ms ≤ (evalAt env 0 (initState q).current_query).1 := not_le_of_lt hlt
    have he' : ¬ (initState q).current_query =
        (evalAt env 0 (initState q).current_query).2.2 := fun hc => hneq hc.symm
    have hstep := @runRounds_continue env ms (f + 1) 0 (initState q) res1 hok' hs' he'
    have herr : env.retrieval 1
        ({ recordRound (initState q) res1 (evalAt env 0 (initState q).current_query) 0 with
           current_query := (evalAt env 0 (initState q).current_query).2.2 } :
          LoopState).current_query = Except.error e := he
    have hrun : runRounds env ms (f + 1 + 1) 0 (initState q) =
        { recordRound (initState q) res1 (evalAt env 0 (initState q).current_query) 0 with
          current_query := (evalAt env 0 (initState q).current_query).2.2 } := by
      rw [hstep, runRounds_error herr]
    constructor
    · by_cases hc : (initState q).best_score <
          (evalAt env 0 (initState q).current_query).1
      · have hbr : (runRounds env ms (f + 1 + 1) 0 (initState q)).best_results =
            some res1 := by
          rw [hrun]
          dsimp only
          rw [recordRound_best_results, if_pos hc]
        exact search_best_results_of_some hbr
      · have hbr : (runRounds env ms (f + 1 + 1) 0 (initState q)).best_results = none := by
          rw [hrun]
          dsimp only
          rw [recordRound_best_results, if_neg hc]
          rfl
        have hres : (runRounds env ms (f + 1 + 1) 0 (initState q)).results = some res1 := by
          rw [hrun]
          dsimp only
          rw [recordRound_results]
        exact search_best_results_of_results hbr hres
    · rw [search_iterations, hrun]
      dsimp only
      rw [recordRound_iterations]
      simp [initState]
  · rintro env ms q mi rf ⟨e, he⟩ hf
    have hrun : runRounds env ms mi 0 (initState q) = initState q := by
      cases mi with
      | zero => rfl
      | succ f => exact runRounds_error he
    unfold perform_iterative_search
    rw [hrun]
    simp [initState, hf]
  · rintro env ms q mi ⟨e, he⟩ ⟨e2, hf⟩
    have hrun : runRounds env ms mi 0 (initState q) = initState q := by
      cases mi with
      | zero => rfl
      | succ f => exact runRounds_error he
    unfold perform_iterative_search
    rw [hrun]
    simp [initState, hf]

/-- C3, witness: the three failure scenarios at concrete inputs — a round-2
retrieval failure returns round 1's `resA` with one iteration; a total
retrieval failure returns the fallback's result unscored; a failing fallback
returns the typed empty result. -/
theorem C3_witness :
    (perform_iterative_search envRound2Fails 3 (mkRat 7 10) "q").best_results = resA ∧
    (perform_iterative_search envRound2Fails 3 (mkRat 7 10) "q").iterations.length = 1 ∧
    perform_iterative_search envAllFailFallbackOk 3 (mkRat 7 10) "q" =
      { best_results := resA, best_score := 0, iterations := [], final_query := "q",
        original_query := "q" } ∧
    perform_iterative_search envAllFail 3 (mkRat 7 10) "q" =
      { best_results := emptyQueryResult, best_score := 0, iterations := [],
        final_query := "q", original_query := "q" } :=
  ⟨(C3_error_handling_contract.1 envRound2Fails (mkRat 7 10) "q" 3 resA (by omega)
      rfl (by decide) (by decide) ⟨(), rfl⟩).1,
   (C3_error_handling_contract.1 envRound2Fails (mkRat 7 10) "q" 3 resA (by omega)
      rfl (by decide) (by decide) ⟨(), rfl⟩).2,
   C3_error_handling_contract.2.1 envAllFailFallbackOk (mkRat 7 10) "q" 3 resA
      ⟨(), rfl⟩ rfl,
   C3_error_handling_contract.2.2 envAllFail (mkRat 7 10) "q" 3
      ⟨(), rfl⟩ ⟨(), rfl⟩⟩

/- ### Claim C4 -/

/-- C4: the loop stops at the first round whose score reaches
`min_relevance_score` (the satisfaction check runs before the no-refinement
check, so no assumption is made about round `n`'s refined query): if rounds
`1..n-1` complete and continue and round `n` completes with score at or above
the threshold, exactly `n` iterations are recorded. -/
theorem C4_stops_at_first_satisfied_round (env : SearchEnv) (ms : ℚ) (q : String)
    (mi n : ℕ) (hn : 1 ≤ n) (hmi : n ≤ mi)
    (hcont : ∀ i, i + 1 < n → roundContinues env ms q i)
    (hok : ∃ res, env.retrieval (n - 1) (queryAt env q (n - 1)) = Except.ok res)
    (hsat : ms ≤ scoreAt env q (n - 1)) :
    (perform_iterative_search env mi ms q).iterations.length = n := by
  obtain ⟨res, hres⟩ := hok
  obtain ⟨st', heq, hq', hlen⟩ := runRounds_continue_many env ms q (n - 1) 0 mi
    (initState q) rfl (fun j hj1 hj2 => hcont j (by omega)) (by omega)
  rw [search_iterations, heq]
  simp only [Nat.zero_add] at hq' hlen ⊢
  obtain ⟨f, hf⟩ : ∃ f, mi - (n - 1) = f + 1 := ⟨mi - (n - 1) - 1, by omega⟩
  rw [hf]
  have hres' : env.retrieval (n - 1) st'.current_query = Except.ok res := by
    rw [hq']; exact hres
  have hs' : ms ≤ (evalAt env (n - 1) st'.current_query).1 := by
    rw [hq']; exact hsat
  rw [runRounds_stop_sat hres' hs', recordRound_iterations]
  simp only [List.length_append, List.length_cons, List.length_nil]
  simp [initState] at hlen
  omega

/-- C4, witness: scores `0.4, 0.75, 0.9` with threshold `0.7` execute exactly
2 rounds. -/
theorem C4_witness :
    (∀ i, i + 1 < 2 → roundContinues envSat (mkRat 7 10) "q" i) ∧
    (∃ res, envSat.retrieval 1 (queryAt envSat "q" 1) = Except.ok res) ∧
    mkRat 7 10 ≤ scoreAt envSat "q" 1 ∧
    (perform_iterative_search envSat 3 (mkRat 7 10) "q").iterations.length = 2 := by
  have hcont : ∀ i, i + 1 < 2 → roundContinues envSat (mkRat 7 10) "q" i := by
    intro i hi
    have h0 : i = 0 := by omega
    subst h0
    exact ⟨⟨resA, rfl⟩, by decide, by decide⟩
  exact ⟨hcont, ⟨resA, rfl⟩, by decide,
    C4_stops_at_first_satisfied_round envSat (mkRat 7 10) "q" 3 2 (by omega) (by omega)
      hcont ⟨resA, rfl⟩ (by decide)⟩

/- ### Claim C5 -/

theorem evalLine_keeps_refined {acc : ℚ × String × String} {l : List Char}
    (h : startsWithL "REFINED_QUERY:".data l = true →
      lowerL (labelValue "REFINED_QUERY:".data l) = "none".data) :
    (evalLine acc l).2.2 = acc.2.2 := by
  unfold evalLine
  by_cases h1 : startsWithL "SCORE:".data l = true
  · rw [if_pos h1]
    cases parsePyFloat (labelValue "SCORE:".data l) <;> rfl
  · rw [if_neg h1]
    by_cases h2 : startsWithL "ANALYSIS:".data l = true
    · rw [if_pos h2]
    · rw [if_neg h2]
      by_cases h3 : startsWithL "REFINED_QUERY:".data l = true
      · rw [if_pos h3]
        have hnone := h h3
        dsimp only
        rw [if_neg (by simp [hnone])]
      · rw [if_neg h3]

theorem foldl_keeps_refined (lines : List (List Char)) :
    ∀ acc : ℚ × String × String,
      (∀ l ∈ lines, startsWithL "REFINED_QUERY:".data l = true →
        lowerL (labelValue "REFINED_QUERY:".data l) = "none".data) →
      (lines.foldl evalLine acc).2.2 = acc.2.2 := by
  induction lines with
  | nil => intro acc _; rfl
  | cons x xs ih =>
    intro acc h
    rw [List.foldl_cons,
      ih (evalLine acc x) (fun l hl => h l (List.mem_cons_of_mem x hl))]
    exact evalLine_keeps_refined (h x (List.mem_cons_self x xs))

/-- C5: when every `REFINED_QUERY:` line of the Judge reply has value
`"none"` compared case-insensitively, the parsed refined query is the current
query unchanged; and a first round whose refined query equals the current
query records exactly one iteration regardless of `max_iterations`. -/
theorem C5_refined_none_keeps_query_and_stops :
    (∀ (content : String) (q : String),
      (∀ l ∈ splitOnCharL '\n' content.data,
        startsWithL "REFINED_QUERY:".data l = true →
        lowerL (labelValue "REFINED_QUERY:".data l) = "none".data) →
      (evaluate_results (some content) q).2.2 = q) ∧
    (∀ (env : SearchEnv) (ms : ℚ) (q : String) (mi : ℕ),
      1 ≤ mi →
      (∃ res, env.retrieval 0 q = Except.ok res) →
      nextQuery env 0 q = q →
      (perform_iterative_search env mi ms q).iterations.length = 1) := by
  constructor
  · intro content q h
    exact foldl_keeps_refined _ _ h
  · rintro env ms q mi hmi ⟨res, hres⟩ hnext
    obtain ⟨f, rfl⟩ : ∃ f, mi = f + 1 := ⟨mi - 1, by omega⟩
    rw [search_iterations]
    have hres' : env.retrieval 0 (initState q).current_query = Except.ok res := hres
    by_cases hs : ms ≤ (evalAt env 0 (initState q).current_query).1
    · rw [runRounds_stop_sat hres' hs, recordRound_iterations]
      simp [initState]
    · have he : (initState q).current_query =
          (evalAt env 0 (initState q).current_query).2.2 := hnext.symm
      rw [runRounds_stop_refine hres' hs he, recordRound_iterations]
      simp [initState]

/-- C5, witness: a reply whose `REFINED_QUERY:` line reads `None` keeps the
query `"q"`, and a round-1 `None` under `max_iterations = 3` records exactly
one iteration. -/
theorem C5_witness :
    (evaluate_results (some "SCORE: 0.4\nREFINED_QUERY: None") "q").2.2 = "q" ∧
    (perform_iterative_search envRefineNone 3 (mkRat 7 10) "q").iterations.length = 1 :=
  ⟨C5_refined_none_keeps_query_and_stops.1 "SCORE: 0.4\nREFINED_QUERY: None" "q"
    (by decide),
   C5_refined_none_keeps_query_and_stops.2 envRefineNone (mkRat 7 10) "q" 3 (by omega)
    ⟨resA, rfl⟩ (by decide)⟩

/- ### Claim C7 -/

/-- C7, counterexample: with `max_iterations = 1` and round 1 scoring `0.4`
with refined query `q2`, the loop exhausts its rounds after executing the
query-update step, so `final_query` is `q2` — not `q`, the query actually
searched in the last executed round. -/
theorem C7_counterexample :
    (perform_iterative_search envRefineQ2 1 (mkRat 7 10) "q").final_query = "q2" ∧
    (perform_iterative_search envRefineQ2 1 (mkRat 7 10) "q").iterations.map
        SearchIteration.query = ["q"] ∧
    ("q2" : String) ≠ "q" := by decide

/-- C7 (amended): `final_query` is the value of the loop's `current_query` at
exit. When the loop terminates by exhausting `max_iterations` (every round
completes and continues), the query-update step has already run in the last
round, so `final_query` is the last round's *refined* query — the query that
would have been searched next — not the query searched in the last executed
round. -/
theorem C7_final_query_after_max_iterations (env : SearchEnv) (ms : ℚ) (q : String)
    (mi : ℕ) (hcont : ∀ i, i < mi → roundContinues env ms q i) :
    (perform_iterative_search env mi ms q).final_query = queryAt env q mi ∧
    (perform_iterative_search env mi ms q).iterations.length = mi := by
  obtain ⟨st', heq, hq', hlen⟩ := runRounds_continue_many env ms q mi 0 mi (initState q)
    rfl (fun j hj1 hj2 => hcont j (by omega)) (le_refl mi)
  rw [Nat.sub_self] at heq
  simp only [Nat.zero_add] at hq' hlen heq
  constructor
  · rw [search_final_query, heq, runRounds_zero]
    exact hq'
  · rw [search_iterations, heq, runRounds_zero, hlen]
    simp [initState]

/-- C7, witness: one round scoring `0.4` refining `q` to `q2` under
`max_iterations = 1`; `final_query` is `queryAt 1`, the refined query. -/
theorem C7_witness :
    (∀ i, i < 1 → roundContinues envRefineQ2 (mkRat 7 10) "q" i) ∧
    (perform_iterative_search envRefineQ2 1 (mkRat 7 10) "q").final_query =
      queryAt envRefineQ2 "q" 1 ∧
    (perform_iterative_search envRefineQ2 1 (mkRat 7 10) "q").iterations.length = 1 := by
  have hcont : ∀ i, i < 1 → roundContinues envRefineQ2 (mkRat 7 10) "q" i := by
    intro i hi
    have h0 : i = 0 := by omega
    subst h0
    exact ⟨⟨resA, rfl⟩, by decide, by decide⟩
  exact ⟨hcont,
    (C7_final_query_after_max_iterations envRefineQ2 (mkRat 7 10) "q" 1 hcont).1,
    (C7_final_query_after_max_iterations envRefineQ2 (mkRat 7 10) "q" 1 hcont).2⟩

/- ### Claim C6 -/

theorem startsWithL_head_ne {p q : Char} {ps qs x : List Char} (hne : q ≠ p)
    (h : startsWithL (p :: ps) x = true) : startsWithL (q :: qs) x = false := by
  cases x with
  | nil => exact absurd h (by simp [startsWithL])
  | cons c cs =>
    have hpc : p = c := by
      by_contra hne2
      simp [startsWithL, hne2] at h
    subst hpc
    simp [startsWithL, hne]

theorem not_analysis_of_score {x : List Char} (h : startsWithL "SCORE:".data x = true) :
    startsWithL "ANALYSIS:".data x = false := startsWithL_head_ne (by decide) h

theorem not_refined_of_score {x : List Char} (h : startsWithL "SCORE:".data x = true) :
    startsWithL "REFINED_QUERY:".data x = false := startsWithL_head_ne (by decide) h

theorem not_refined_of_analysis {x : List Char}
    (h : startsWithL "ANALYSIS:".data x = true) :
    startsWithL "REFINED_QUERY:".data x = false := startsWithL_head_ne (by decide) h

theorem filter_getLast?_concat {α : Type} (p : α → Bool) (ls : List α) (x : α) :
    ((ls ++ [x]).filter p).getLast? =
      if p x then some x else (ls.filter p).getLast? := by
  rw [List.filter_append]
  by_cases hp : p x
  · rw [if_pos hp]
    have hx : List.filter p [x] = [x] := by simp [hp]
    rw [hx, List.getLast?_concat]
  · rw [if_neg hp]
    have hx : List.filter p [x] = ([] : List α) := by simp [hp]
    rw [hx, List.append_nil]

theorem foldl_evalLine_spec (lines : List (List Char)) :
    ∀ acc : ℚ × String × String,
      lines.foldl evalLine acc =
        ((match lastLabelled "SCORE:".data lines with
          | none => acc.1
          | some l => (parsePyFloat (labelValue "SCORE:".data l)).getD 0),
         (match lastLabelled "ANALYSIS:".data lines with
          | none => acc.2.1
          | some l => String.mk (labelValue "ANALYSIS:".data l)),
         (match (lines.filter (fun l => startsWithL "REFINED_QUERY:".data l &&
              decide (lowerL (labelValue "REFINED_QUERY:".data l) ≠
                "none".data))).getLast? with
          | none => acc.2.2
          | some l => String.mk (labelValue "REFINED_QUERY:".data l))) := by
  induction lines using List.reverseRecOn with
  | nil => intro acc; rfl
  | append_singleton ls x ih =>
    intro acc
    rw [List.foldl_append, List.foldl_cons, List.foldl_nil, ih acc]
    unfold lastLabelled
    rw [filter_getLast?_concat, filter_getLast?_concat, filter_getLast?_concat]
    unfold evalLine
    dsimp only
    by_cases h1 : startsWithL "SCORE:".data x = true
    · rw [if_pos h1, if_pos h1,
        if_neg (by simp [not_analysis_of_score h1]),
        if_neg (by simp [not_refined_of_score h1])]
      dsimp only
      cases hp : parsePyFloat (labelValue "SCORE:".data x) <;> rfl
    · rw [if_neg h1, if_neg h1]
      by_cases h2 : startsWithL "ANALYSIS:".data x = true
      · rw [if_pos h2, if_pos h2,
          if_neg (by simp [not_refined_of_analysis h2])]
      · rw [if_neg h2, if_neg h2]
        by_cases h3 : startsWithL "REFINED_QUERY:".data x = true
        · rw [if_pos h3]
          by_cases h4 : lowerL (labelValue "REFINED_QUERY:".data x) ≠ "none".data
          · rw [if_pos h4, if_pos (by simp [h3, h4])]
          · have heq : lowerL (labelValue "REFINED_QUERY:".data x) = "none".data :=
              not_ne_iff.mp h4
            rw [if_neg h4, if_neg (by simp [heq])]
        · rw [if_neg h3, if_neg (by simp [h3])]

/-- C6, counterexample: given two `SCORE:` lines, the parser's line loop
overwrites on each occurrence, so the reported score is the last line's
`0.9`, not the first occurrence's `0.2` as the claim states. -/
theorem C6_counterexample :
    (evaluate_results (some "SCORE: 0.2\nSCORE: 0.9") "q").1 = mkRat 9 10 ∧
    mkRat 9 10 ≠ mkRat 1 5 := by decide

/-- C6 (amended): the parser scans lines independently (order-tolerant), but
keeps the *last* occurrence of `SCORE:` and `ANALYSIS:` (each matching line
overwrites the previous value, so a later unparsable `SCORE:` resets the
score to `0.0`) and, for `REFINED_QUERY:`, the last occurrence whose value is
not `"none"` case-insensitively. A missing or unparsable `SCORE:` yields
`0.0`, a missing `ANALYSIS:` yields the literal placeholder, and an input
with none of the three prefixes yields `(0.0, placeholder, current query)`. -/
theorem C6_parser_last_occurrence (content : String) (q : String) :
    evaluate_results (some content) q =
      (specScore (splitOnCharL '\n' content.data),
       specAnalysis (splitOnCharL '\n' content.data),
       specRefined (splitOnCharL '\n' content.data) q) := by
  unfold evaluate_results specScore specAnalysis specRefined lastLabelled
  dsimp only
  rw [foldl_evalLine_spec]
  rfl

/- ### Claim C8 -/

theorem footnoteLoop_eq (metas : List Metadata) :
    ∀ (seen acc : List (String × String)),
      footnoteLoop seen acc metas =
        acc ++ (dedupFirst ((metas.map footnoteKey).filter
          (fun k => decide (k ∉ seen)))).map (fun k => (stripS k.1, stripS k.2)) := by
  induction metas with
  | nil =>
    intro seen acc
    simp [footnoteLoop, dedupFirst]
  | cons m rest ih =>
    intro seen acc
    by_cases hm : footnoteKey m ∈ seen
    · simp only [footnoteLoop]
      rw [if_pos hm, ih seen acc, List.map_cons, List.filter_cons]
      simp [hm]
    · simp only [footnoteLoop]
      rw [if_neg hm, ih (seen ++ [footnoteKey m])
        (acc ++ [(stripS (footnoteKey m).1, stripS (footnoteKey m).2)]),
        List.map_cons, List.filter_cons]
      have hpt : ∀ k : String × String,
          decide (k ∉ seen ++ [footnoteKey m]) =
            (decide (k ≠ footnoteKey m) && decide (k ∉ seen)) := by
        intro k
        by_cases h1 : k = footnoteKey m
        · subst h1
          simp [List.mem_append]
        · by_cases h2 : k ∈ seen <;> simp [List.mem_append, h1, h2]
      have hfilter : (rest.map footnoteKey).filter
            (fun k => decide (k ∉ seen ++ [footnoteKey m])) =
          ((rest.map footnoteKey).filter (fun k => decide (k ∉ seen))).filter
            (fun k => decide (k ≠ footnoteKey m)) := by
        rw [List.filter_filter]
        exact List.filter_congr (fun x _ => hpt x)
      rw [hfilter]
      simp only [hm, decide_not, decide_eq_true_eq]
      rw [if_pos (by simp [hm])]
      rw [dedupFirst]
      simp [List.append_assoc]

/-- C8: the footnote formatter deduplicates on the exact `(title, source)`
pair — the source first reduced to its final `/`-delimited segment — keeping
first-seen order (a later duplicate never displaces or reorders an earlier
entry), and numbers the deduplicated entries sequentially from 1; on the
example metadata (titles `A`, `A`, `B` with sources `x/doc.md`, `doc.md`,
`doc.md`) it yields exactly the two footnotes `[1] "A", doc.md` and
`[2] "B", doc.md`. -/
theorem C8_format_footnotes_dedup :
    (∀ metas : List Metadata,
      footnoteLoop [] [] metas =
        (dedupFirst (metas.map footnoteKey)).map (fun k => (stripS k.1, stripS k.2))) ∧
    format_footnotes [metaA1, metaA2, metaB] =
      "[1] \"A\", `doc.md`\n[2] \"B\", `doc.md`" := by
  constructor
  · intro metas
    rw [footnoteLoop_eq]
    simp
  · decide

/- ### Claim C9 -/

/-- C9: in the streaming chat variant, a stream that raises partway (after
any number of delivered chunks) leaves `conversation_history` with only the
user message appended for that turn — no partial assistant message is ever
recorded, because the assistant append only runs after the chunk loop
completes. -/
theorem C9_stream_failure_preserves_history (max_history : ℕ) (history : List ChatMsg)
    (user_message : String) (env : StreamEnv) (h : env.streamFails = true) :
    (generate_response_stream max_history history user_message env).2 =
      history ++ [{ role := "user", content := user_message }] := by
  unfold generate_response_stream
  dsimp only
  by_cases hp : env.preOk = true
  · rw [if_pos hp, if_pos h]
  · rw [if_neg hp]

/-- C9, witness: a stream delivering `par`/`tial` chunks and then failing
leaves the history as exactly the user message. -/
theorem C9_witness :
    envStreamFail.streamFails = true ∧
    (generate_response_stream 50 [] "hi" envStreamFail).2 =
      [{ role := "user", content := "hi" }] :=
  ⟨rfl, C9_stream_failure_preserves_history 50 [] "hi" envStreamFail rfl⟩
